import Mathlib

/-!
Shallow embedding of `src/pytorch_pretrained_bert/modelingold.py`.

Tensors over the last dimensions are modelled as functions out of `Fin`
index types into `ℚ`.  The transcendental scalar primitives supplied by the
tensor framework (`torch.exp` inside softmax, `torch.erf`, `math.sqrt`,
`torch.sqrt`) are taken as function parameters, so every definition stays
computable; the architecture wiring — the subject of the claims — is
translated operation by operation from the Python source.  Dropout layers
are the identity in evaluation mode and are embedded as such.
-/

/-- Weight and bias of a `torch.nn.Linear(dIn, dOut)` module. -/
structure LinearLayer (dIn dOut : ℕ) where
  weight : Fin dOut → Fin dIn → ℚ
  bias : Fin dOut → ℚ

/-- Forward pass of `torch.nn.Linear` on one row: `y = x Aᵀ + b`. -/
def LinearLayer.forward {dIn dOut : ℕ} (m : LinearLayer dIn dOut)
    (x : Fin dIn → ℚ) : Fin dOut → ℚ :=
  fun o => (∑ i, m.weight o i * x i) + m.bias o

/-- Softmax along a `Fin n` axis, with the framework exponential `expF`
taken as a parameter (`nn.Softmax(dim=-1)`). -/
def softmax {n : ℕ} (expF : ℚ → ℚ) (x : Fin n → ℚ) : Fin n → ℚ :=
  fun i => expF (x i) / ∑ j, expF (x j)

/-- Parameters of the fallback `BertLayerNorm` module (lines 231-244):
`weight` is initialised to ones, `bias` to zeros, and `variance_epsilon`
is the `eps` argument. -/
structure BertLayerNorm (n : ℕ) where
  weight : Fin n → ℚ
  bias : Fin n → ℚ
  variance_epsilon : ℚ

/-- Translation of `BertLayerNorm.forward`, acting on one row `x` of the
last dimension (`mean(-1, keepdim=True)` makes the rows independent):

    u = x.mean(-1, keepdim=True)
    s = (x - u).pow(2).mean(-1, keepdim=True)
    x = (x - u) / torch.sqrt(s + self.variance_epsilon)
    return self.weight * x + self.bias

with the framework square root `sqrtF` a parameter. -/
def BertLayerNorm.forward {n : ℕ} (sqrtF : ℚ → ℚ) (m : BertLayerNorm n)
    (x : Fin n → ℚ) : Fin n → ℚ :=
  let u : ℚ := (∑ i, x i) / (n : ℚ)
  let s : ℚ := (∑ i, (x i - u) ^ 2) / (n : ℚ)
  let x' : Fin n → ℚ := fun i => (x i - u) / sqrtF (s + m.variance_epsilon)
  fun i => m.weight i * x' i + m.bias i

/-- Layer normalization as the specification states it: the value
`weight * (x - u) / sqrt(s + variance_epsilon) + bias`, where `u` is the
mean of `x` over the last dimension and `s` is the mean over the last
dimension of the squared deviations from `u`. -/
def layerNormTFStyle {n : ℕ} (sqrtF : ℚ → ℚ) (m : BertLayerNorm n)
    (x : Fin n → ℚ) : Fin n → ℚ :=
  fun i =>
    m.weight i *
        ((x i - (∑ j, x j) / (n : ℚ)) /
          sqrtF ((∑ j, (x j - (∑ k, x k) / (n : ℚ)) ^ 2) / (n : ℚ) +
            m.variance_epsilon)) +
      m.bias i

/-- Row-major flat index of the pair `(h, d)` in a dimension of size
`nh * hs`: the semantics of `x.view(..., nh, hs)` splitting the last
dimension. -/
def splitIdx {nh hs : ℕ} (h : Fin nh) (d : Fin hs) : Fin (nh * hs) :=
  ⟨h.val * hs + d.val, by
    calc h.val * hs + d.val < h.val * hs + hs := Nat.add_lt_add_left d.isLt _
    _ = (h.val + 1) * hs := by ring
    _ ≤ nh * hs := Nat.mul_le_mul_right hs h.isLt⟩

def right_factor_pos_of_fin {nh hs : ℕ} (i : Fin (nh * hs)) : 0 < hs := by
  rcases Nat.eq_zero_or_pos hs with h0 | h0
  · subst h0
    exact absurd i.isLt (by simp)
  · exact h0

/-- Head component of a flat index in a dimension of size `nh * hs`. -/
def headIdx {nh hs : ℕ} (i : Fin (nh * hs)) : Fin nh :=
  ⟨i.val / hs,
    (Nat.div_lt_iff_lt_mul (right_factor_pos_of_fin i)).mpr i.isLt⟩

/-- Within-head offset component of a flat index in a dimension of size
`nh * hs`. -/
def offsetIdx {nh hs : ℕ} (i : Fin (nh * hs)) : Fin hs :=
  ⟨i.val % hs, Nat.mod_lt _ (right_factor_pos_of_fin i)⟩

/-- Parameters of a `BertSelfAttention` module whose `hidden_size` is
`nh * hs` with `nh` attention heads of size `hs` (`all_head_size =
num_attention_heads * attention_head_size = hidden_size`). -/
structure BertSelfAttention (nh hs : ℕ) where
  query : LinearLayer (nh * hs) (nh * hs)
  key : LinearLayer (nh * hs) (nh * hs)
  value : LinearLayer (nh * hs) (nh * hs)

/-- Translation of `BertSelfAttention.transpose_for_scores`:
`x.view(*x.size()[:-1], nh, hs).permute(0, 2, 1, 3)` on a
`[B, S, nh*hs]` tensor. -/
def transpose_for_scores {B S nh hs : ℕ}
    (x : Fin B → Fin S → Fin (nh * hs) → ℚ) :
    Fin B → Fin nh → Fin S → Fin hs → ℚ :=
  fun b h s d => x b s (splitIdx h d)

/-- Translation of `BertSelfAttention.forward` (lines 377-404), in
evaluation mode (the attention-probability dropout is the identity).
`expF` is the framework exponential used by `nn.Softmax`, and
`sqrtHeadSize` the scalar `math.sqrt(self.attention_head_size)`. -/
def BertSelfAttention.forward {B S nh hs : ℕ} (expF : ℚ → ℚ)
    (sqrtHeadSize : ℚ) (m : BertSelfAttention nh hs)
    (hidden_states : Fin B → Fin S → Fin (nh * hs) → ℚ)
    (attention_mask : Fin B → Fin nh → Fin S → Fin S → ℚ) :
    Fin B → Fin S → Fin (nh * hs) → ℚ :=
  let mixed_query_layer := fun b s => m.query.forward (hidden_states b s)
  let mixed_key_layer := fun b s => m.key.forward (hidden_states b s)
  let mixed_value_layer := fun b s => m.value.forward (hidden_states b s)
  let query_layer := transpose_for_scores mixed_query_layer
  let key_layer := transpose_for_scores mixed_key_layer
  let value_layer := transpose_for_scores mixed_value_layer
  -- torch.matmul(query_layer, key_layer.transpose(-1, -2)) / sqrt(hs)
  let attention_scores := fun (b : Fin B) (h : Fin nh) (i j : Fin S) =>
    (∑ d, query_layer b h i d * key_layer b h j d) / sqrtHeadSize
  -- attention_scores = attention_scores + attention_mask
  let masked_scores := fun (b : Fin B) (h : Fin nh) (i j : Fin S) =>
    attention_scores b h i j + attention_mask b h i j
  -- attention_probs = nn.Softmax(dim=-1)(attention_scores)
  let attention_probs := fun (b : Fin B) (h : Fin nh) (i : Fin S) =>
    softmax expF (fun j => masked_scores b h i j)
  -- context_layer = torch.matmul(attention_probs, value_layer)
  let context_layer := fun (b : Fin B) (h : Fin nh) (i : Fin S) (d : Fin hs) =>
    ∑ j, attention_probs b h i j * value_layer b h j d
  -- context_layer.permute(0, 2, 1, 3).view(..., all_head_size)
  fun b s i => context_layer b (headIdx i) s (offsetIdx i)

/-- The published scaled-dot-product multi-head attention, stated per
head as the specification does: head `h` attends with probabilities
`softmax(Q_h K_hᵀ / sqrt(hs) + M)` and returns the weighted sum of the
value projections; the heads are concatenated back to `all_head_size`. -/
def scaledDotProductMultiHeadAttention {B S nh hs : ℕ} (expF : ℚ → ℚ)
    (sqrtHeadSize : ℚ) (m : BertSelfAttention nh hs)
    (hidden_states : Fin B → Fin S → Fin (nh * hs) → ℚ)
    (attention_mask : Fin B → Fin nh → Fin S → Fin S → ℚ) :
    Fin B → Fin S → Fin (nh * hs) → ℚ :=
  let Q := fun (b : Fin B) (h : Fin nh) (s : Fin S) (d : Fin hs) =>
    m.query.forward (hidden_states b s) (splitIdx h d)
  let K := fun (b : Fin B) (h : Fin nh) (s : Fin S) (d : Fin hs) =>
    m.key.forward (hidden_states b s) (splitIdx h d)
  let V := fun (b : Fin B) (h : Fin nh) (s : Fin S) (d : Fin hs) =>
    m.value.forward (hidden_states b s) (splitIdx h d)
  let headOutput := fun (b : Fin B) (h : Fin nh) (i : Fin S) (d : Fin hs) =>
    ∑ j, softmax expF
        (fun j' => (∑ d', Q b h i d' * K b h j' d') / sqrtHeadSize +
          attention_mask b h i j') j *
      V b h j d
  fun b s i => headOutput b (headIdx i) s (offsetIdx i)

/-- Parameters of `BertSelfOutput`: a `hidden_size → hidden_size` dense
layer followed by layer normalization (lines 407-418). -/
structure BertSelfOutput (H : ℕ) where
  dense : LinearLayer H H
  LayerNorm : BertLayerNorm H

/-- Translation of `BertSelfOutput.forward` on one `[H]` row, in
evaluation mode (dropout is the identity):
`self.LayerNorm(self.dropout(self.dense(hidden_states)) + input_tensor)`. -/
def BertSelfOutput.forward {H : ℕ} (sqrtF : ℚ → ℚ) (m : BertSelfOutput H)
    (hidden_states input_tensor : Fin H → ℚ) : Fin H → ℚ :=
  m.LayerNorm.forward sqrtF
    (fun i => m.dense.forward hidden_states i + input_tensor i)

/-- Parameters of `BertAttention`: the self-attention module and its
output sublayer (lines 421-432). -/
structure BertAttention (nh hs : ℕ) where
  self : BertSelfAttention nh hs
  output : BertSelfOutput (nh * hs)

/-- Translation of `BertAttention.forward`:
`self.output(self.self(input_tensor, attention_mask), input_tensor)`. -/
def BertAttention.forward {B S nh hs : ℕ} (expF : ℚ → ℚ)
    (sqrtHeadSize : ℚ) (sqrtF : ℚ → ℚ) (m : BertAttention nh hs)
    (input_tensor : Fin B → Fin S → Fin (nh * hs) → ℚ)
    (attention_mask : Fin B → Fin nh → Fin S → Fin S → ℚ) :
    Fin B → Fin S → Fin (nh * hs) → ℚ :=
  let self_output := m.self.forward expF sqrtHeadSize input_tensor attention_mask
  fun b s => m.output.forward sqrtF (self_output b s) (input_tensor b s)

/-- Parameters of `BertIntermediate`: the feed-forward expansion
`hidden_size → intermediate_size` and its activation `intermediate_act_fn`
(lines 435-447), the activation taken as a scalar function applied
elementwise. -/
structure BertIntermediate (H I : ℕ) where
  dense : LinearLayer H I
  intermediate_act_fn : ℚ → ℚ

/-- Translation of `BertIntermediate.forward`:
`self.intermediate_act_fn(self.dense(hidden_states))`. -/
def BertIntermediate.forward {H I : ℕ} (m : BertIntermediate H I)
    (hidden_states : Fin H → ℚ) : Fin I → ℚ :=
  fun i => m.intermediate_act_fn (m.dense.forward hidden_states i)

/-- Parameters of `BertOutput`: the feed-forward contraction
`intermediate_size → hidden_size` followed by layer normalization
(lines 450-461). -/
structure BertOutput (H I : ℕ) where
  dense : LinearLayer I H
  LayerNorm : BertLayerNorm H

/-- Translation of `BertOutput.forward` on one row, in evaluation mode:
`self.LayerNorm(self.dropout(self.dense(hidden_states)) + input_tensor)`. -/
def BertOutput.forward {H I : ℕ} (sqrtF : ℚ → ℚ) (m : BertOutput H I)
    (hidden_states : Fin I → ℚ) (input_tensor : Fin H → ℚ) : Fin H → ℚ :=
  m.LayerNorm.forward sqrtF
    (fun i => m.dense.forward hidden_states i + input_tensor i)

/-- Parameters of one `BertLayer` (lines 464-477). -/
structure BertLayer (nh hs I : ℕ) where
  attention : BertAttention nh hs
  intermediate : BertIntermediate (nh * hs) I
  output : BertOutput (nh * hs) I

/-- Translation of `BertLayer.forward`:

    attention_output = self.attention(hidden_states, attention_mask)
    intermediate_output = self.intermediate(attention_output)
    layer_output = self.output(intermediate_output, attention_output)
-/
def BertLayer.forward {B S nh hs I : ℕ} (expF : ℚ → ℚ)
    (sqrtHeadSize : ℚ) (sqrtF : ℚ → ℚ) (m : BertLayer nh hs I)
    (hidden_states : Fin B → Fin S → Fin (nh * hs) → ℚ)
    (attention_mask : Fin B → Fin nh → Fin S → Fin S → ℚ) :
    Fin B → Fin S → Fin (nh * hs) → ℚ :=
  let attention_output :=
    m.attention.forward expF sqrtHeadSize sqrtF hidden_states attention_mask
  let intermediate_output :=
    fun b s => m.intermediate.forward (attention_output b s)
  fun b s => m.output.forward sqrtF (intermediate_output b s) (attention_output b s)

/-- The standard post-norm transformer block as the specification words
it: the attention sublayer output is the layer-normalized sum of a linear
projection of the self-attention result and the sublayer input, and the
layer output is the layer-normalized sum of the attention output and a
linear projection of the activation of a linear expansion of the
attention output. -/
def postNormTransformerBlock {B S nh hs I : ℕ} (expF : ℚ → ℚ)
    (sqrtHeadSize : ℚ) (sqrtF : ℚ → ℚ) (m : BertLayer nh hs I)
    (hidden_states : Fin B → Fin S → Fin (nh * hs) → ℚ)
    (attention_mask : Fin B → Fin nh → Fin S → Fin S → ℚ) :
    Fin B → Fin S → Fin (nh * hs) → ℚ :=
  let selfAttn :=
    m.attention.self.forward expF sqrtHeadSize hidden_states attention_mask
  let attnOut := fun (b : Fin B) (s : Fin S) =>
    m.attention.output.LayerNorm.forward sqrtF
      (fun i => m.attention.output.dense.forward (selfAttn b s) i +
        hidden_states b s i)
  fun b s =>
    m.output.LayerNorm.forward sqrtF
      (fun i => attnOut b s i +
        m.output.dense.forward
          (fun j => m.intermediate.intermediate_act_fn
            (m.intermediate.dense.forward (attnOut b s) j)) i)

def left_factor_pos_of_fin {a b : ℕ} (i : Fin (a * b)) : 0 < a := by
  rcases Nat.eq_zero_or_pos a with h0 | h0
  · subst h0
    exact absurd i.isLt (by simp)
  · exact h0

/-- Translation of `BertForSequenceClassification.forward` (lines
1086-1096) after the `self.bert(...)` call, in evaluation mode and on the
`labels is None` branch: dropout on the pooled output is the identity and
`logits = self.classifier(pooled_output)`.  Both outputs of the
underlying `BertModel` are passed, as the source receives both. -/
def BertForSequenceClassification.forwardLogits {B S H L : ℕ}
    (classifier : LinearLayer H L)
    (sequence_output : Fin B → Fin S → Fin H → ℚ)
    (pooled_output : Fin B → Fin H → ℚ) : Fin B → Fin L → ℚ :=
  fun b => classifier.forward (pooled_output b)

/-- Translation of `BertForTokenClassification.forward` (lines 1221-1238)
after the `self.bert(...)` call, in evaluation mode and on the `labels is
None` branch: dropout is the identity and
`logits = self.classifier(sequence_output)`. -/
def BertForTokenClassification.forwardLogits {B S H L : ℕ}
    (classifier : LinearLayer H L)
    (sequence_output : Fin B → Fin S → Fin H → ℚ)
    (pooled_output : Fin B → Fin H → ℚ) : Fin B → Fin S → Fin L → ℚ :=
  fun b s => classifier.forward (sequence_output b s)

/-- Semantics of `logits.view(-1, rel_dim * max_tok)` on a
`[B, max_tok, rel_dim]` tensor: row-major flattening of the last two
dimensions, token position major. -/
def flattenSR {maxTok R : ℕ} (x : Fin maxTok → Fin R → ℚ) :
    Fin (R * maxTok) → ℚ :=
  fun i =>
    have hR : 0 < R := left_factor_pos_of_fin i
    x ⟨i.val / R,
        (Nat.div_lt_iff_lt_mul hR).mpr
          (by rw [Nat.mul_comm maxTok R]; exact i.isLt)⟩
      ⟨i.val % R, Nat.mod_lt _ hR⟩

/-- Translation of `BertForSimpleRelationExtraction_allwords.forward`
(lines 1370-1379) after the `self.bert(...)` call, in evaluation mode:
dropout is the identity, `logits = self.encode_1(sequence_output)`,
`reshaped_logits = logits.view(-1, rel_dim * max_tok)`, and the returned
`logits_200 = self.encode_2(reshaped_logits)` (the sequence length equals
`max_tok`). -/
def BertForSimpleRelationExtraction_allwords.forwardOutput
    {B maxTok H R : ℕ} (encode_1 : LinearLayer H R)
    (encode_2 : LinearLayer (R * maxTok) R)
    (sequence_output : Fin B → Fin maxTok → Fin H → ℚ)
    (pooled_output : Fin B → Fin H → ℚ) : Fin B → Fin R → ℚ :=
  let logits := fun b (s : Fin maxTok) => encode_1.forward (sequence_output b s)
  let reshaped_logits := fun b => flattenSR (logits b)
  fun b => encode_2.forward (reshaped_logits b)

/-- Translation of `gelu` (lines 123-129):
`x * 0.5 * (1.0 + torch.erf(x / math.sqrt(2.0)))`, with the framework
error function `erf` and the scalar `math.sqrt(2.0)` as parameters. -/
def gelu (erf : ℚ → ℚ) (sqrtTwo : ℚ) (x : ℚ) : ℚ :=
  x * (1 / 2) * (1 + erf (x / sqrtTwo))

/-- One access step of the pointer walk in `load_tf_weights_in_bert`:
`getattr(pointer, s)` or `pointer[n]`. -/
inductive Step where
  | attr : String → Step
  | idx : ℕ → Step
deriving DecidableEq

/-- Shape and contents of a checkpoint array or of the `.data` of a model
parameter; `data` maps a multi-index to the entry. -/
structure TensorData where
  shape : List ℕ
  data : List ℕ → ℚ

/-- Semantics of `np.transpose(array)` with no axes argument: the axes
are reversed. -/
def TensorData.transpose (t : TensorData) : TensorData :=
  ⟨t.shape.reverse, fun ix => t.data ix.reverse⟩

/-- A PyTorch object as seen by the pointer walk: a parameter (leaf), a
module with named attributes, or a module list indexed by position. -/
inductive PyObj where
  | param : TensorData → PyObj
  | module : List (String × PyObj) → PyObj
  | modlist : List PyObj → PyObj

def lookupAttr : List (String × PyObj) → String → Option PyObj
  | [], _ => none
  | (k, v) :: rest, s => if k = s then some v else lookupAttr rest s

def updateAttrList : List (String × PyObj) → String → PyObj →
    List (String × PyObj)
  | [], _, _ => []
  | (k, v) :: rest, s, o =>
    if k = s then (k, o) :: rest else (k, v) :: updateAttrList rest s o

def getNth : List PyObj → ℕ → Option PyObj
  | [], _ => none
  | x :: _, 0 => some x
  | _ :: rest, n + 1 => getNth rest n

def setNth : List PyObj → ℕ → PyObj → List PyObj
  | [], _, _ => []
  | _ :: rest, 0, o => o :: rest
  | x :: rest, n + 1, o => x :: setNth rest n o

def resolveStep : PyObj → Step → Option PyObj
  | .module attrs, .attr s => lookupAttr attrs s
  | .modlist items, .idx n => getNth items n
  | _, _ => none

/-- The pointer walk `pointer = model; for ...: pointer = getattr(...)`,
as resolution of a step path. -/
def resolvePath : PyObj → List Step → Option PyObj
  | obj, [] => some obj
  | obj, st :: rest => (resolveStep obj st).bind (fun o => resolvePath o rest)

/-- Functional semantics of `pointer.data = torch.from_numpy(array)`:
replace the parameter found at the end of the step path. -/
def updatePath : PyObj → List Step → TensorData → Option PyObj
  | .param _, [], t => some (.param t)
  | .module attrs, .attr s :: rest, t =>
    (lookupAttr attrs s).bind (fun child =>
      (updatePath child rest t).map
        (fun c' => .module (updateAttrList attrs s c')))
  | .modlist items, .idx n :: rest, t =>
    (getNth items n).bind (fun child =>
      (updatePath child rest t).map
        (fun c' => .modlist (setNth items n c')))
  | _, _, _ => none

def digitsToNat (ds : List Char) : ℕ :=
  ds.foldl (fun n c => n * 10 + (c.toNat - 48)) 0

/-- Semantics of `re.fullmatch(r'[A-Za-z]+_\d+', m_name)` together with
`re.split(r'_(\d+)', m_name)`: on a full match, the letter part and the
numeral value. -/
def matchLayerNum (s : String) : Option (String × ℕ) :=
  let cs := s.data
  let letters := cs.takeWhile Char.isAlpha
  if letters.length = 0 then none
  else
    match cs.drop letters.length with
    | '_' :: ds =>
      if ds ≠ [] ∧ ds.all Char.isDigit then some (⟨letters⟩, digitsToNat ds)
      else none
    | _ => none

/-- The attribute selected from `l[0]` by the chain of tests in the loop
body of `load_tf_weights_in_bert` (lines 98-105). -/
def attrStepOf (l0 : String) : Step :=
  if l0 = "kernel" ∨ l0 = "gamma" then .attr "weight"
  else if l0 = "output_bias" ∨ l0 = "beta" then .attr "bias"
  else if l0 = "output_weights" then .attr "weight"
  else .attr l0

/-- The steps contributed by one slash-separated name component: the
attribute from `l[0]`, then, when the component fully matches
`[A-Za-z]+_\d+`, the index `pointer[int(l[1])]`. -/
def stepOf (m : String) : List Step :=
  match matchLayerNum m with
  | some (a, k) => [attrStepOf a, .idx k]
  | none => [attrStepOf m]

/-- Semantics of the Python test `m_name[-11:] == '_embeddings'`. -/
def lastElevenIsEmbeddings (s : String) : Bool :=
  let cs := s.data
  cs.drop (cs.length - 11) == "_embeddings".data

/-- The full access path of one checkpoint variable: the per-component
steps of the loop, then, when the final component ends in
`_embeddings`, the extra `getattr(pointer, 'weight')`. -/
def targetSteps (name : List String) : List Step :=
  let path := (name.map stepOf).flatten
  match name.getLast? with
  | some m => if lastElevenIsEmbeddings m then path ++ [.attr "weight"] else path
  | none => path

/-- The array as assigned: transposed when the final name component is
`'kernel'` (and not when it ends in `_embeddings`, the `elif`). -/
def targetTensor (name : List String) (array : TensorData) : TensorData :=
  match name.getLast? with
  | some m =>
    if lastElevenIsEmbeddings m then array
    else if m = "kernel" then array.transpose
    else array
  | none => array

/-- Failures of one loop iteration: a failed attribute access, or the
`assert pointer.shape == array.shape` augmented with the two shapes. -/
inductive LoadError where
  | attrError : LoadError
  | shapeMismatch : List ℕ → List ℕ → LoadError

/-- Test of `any(n in ["adam_v", "adam_m"] for n in name)`. -/
def isSkipped (name : List String) : Bool :=
  name.any (fun n => n == "adam_v" || n == "adam_m")

/-- One non-skipped iteration of the loop over checkpoint variables:
resolve the pointer, check the shapes, assign the (possibly transposed)
array. -/
def processVar (model : PyObj) (name : List String) (array : TensorData) :
    Except LoadError PyObj :=
  let path := targetSteps name
  let arr := targetTensor name array
  match resolvePath model path with
  | some (.param t) =>
    if t.shape = arr.shape then
      match updatePath model path arr with
      | some m' => .ok m'
      | none => .error .attrError
    else .error (.shapeMismatch t.shape arr.shape)
  | _ => .error .attrError

/-- Translation of the loop of `load_tf_weights_in_bert` (lines 85-120).
The checkpoint is modelled as the list of its variables with names
already split on `'/'`; variables containing an `adam_v` or `adam_m`
component are skipped, the others are resolved and assigned in order. -/
def load_tf_weights_in_bert (model : PyObj)
    (tfVars : List (List String × TensorData)) : Except LoadError PyObj :=
  match tfVars with
  | [] => .ok model
  | (name, array) :: rest =>
    if isSkipped name then load_tf_weights_in_bert model rest
    else
      match processVar model name array with
      | .error e => .error e
      | .ok m' => load_tf_weights_in_bert m' rest

def isStepPrefixOf : List Step → List Step → Bool
  | [], _ => true
  | _ :: _, [] => false
  | a :: p, b :: q => decide (a = b) && isStepPrefixOf p q

/-- The shape of the parameter resolved at a step path, when the path
resolves to a parameter. -/
def paramShapeAt (m : PyObj) (p : List Step) : Option (List ℕ) :=
  match resolvePath m p with
  | some (.param t) => some t.shape
  | _ => none

def isShapeError : Except LoadError PyObj → Bool
  | .error (.shapeMismatch _ _) => true
  | _ => false

/-- Dimensions computed by `BertSelfAttention.__init__` (lines 356-364)
when it does not raise. -/
structure SelfAttentionDims where
  num_attention_heads : ℕ
  attention_head_size : ℕ
  all_head_size : ℕ

/-- Translation of the raising part of `BertSelfAttention.__init__`:
`ValueError` when `hidden_size % num_attention_heads != 0`, otherwise
`attention_head_size = int(hidden_size / num_attention_heads)` and
`all_head_size = num_attention_heads * attention_head_size`. -/
def bertSelfAttentionInit (hidden_size num_attention_heads : ℕ) :
    Except String SelfAttentionDims :=
  if hidden_size % num_attention_heads ≠ 0 then
    .error "The hidden size is not a multiple of the number of attention heads"
  else
    .ok ⟨num_attention_heads, hidden_size / num_attention_heads,
      num_attention_heads * (hidden_size / num_attention_heads)⟩

/-- Construction of `BertAttention(config)` constructs the contained
`BertSelfAttention(config)` (the `BertSelfOutput` does not raise). -/
def bertAttentionInit (hidden_size num_attention_heads : ℕ) :
    Except String SelfAttentionDims :=
  bertSelfAttentionInit hidden_size num_attention_heads

/-- Construction of `BertLayer(config)` constructs `BertAttention(config)`
(`BertIntermediate` and `BertOutput` do not raise). -/
def bertLayerInit (hidden_size num_attention_heads : ℕ) :
    Except String SelfAttentionDims :=
  bertAttentionInit hidden_size num_attention_heads

/-- Construction of `BertEncoder(config)` constructs a `BertLayer(config)`
and deep-copies it. -/
def bertEncoderInit (hidden_size num_attention_heads : ℕ) :
    Except String SelfAttentionDims :=
  bertLayerInit hidden_size num_attention_heads

/-- Construction of `BertModel(config)` constructs `BertEncoder(config)`
(`BertEmbeddings` and `BertPooler` do not raise). -/
def bertModelInit (hidden_size num_attention_heads : ℕ) :
    Except String SelfAttentionDims :=
  bertEncoderInit hidden_size num_attention_heads

def isInitError {α : Type} : Except String α → Bool
  | .error _ => true
  | .ok _ => false

/-- A Python attribute value of a `BertConfig`. -/
inductive PyVal where
  | int : Int → PyVal
  | str : String → PyVal
  | float : ℚ → PyVal
deriving DecidableEq

/-- Semantics of `config.__dict__[key] = value` on an ordered attribute
dictionary: overwrite in place when the key exists, append otherwise. -/
def dictSet (d : List (String × PyVal)) (k : String) (v : PyVal) :
    List (String × PyVal) :=
  if d.any (fun kv => kv.1 == k) then
    d.map (fun kv => if kv.1 == k then (kv.1, v) else kv)
  else d ++ [(k, v)]

/-- The `__dict__` produced by the `isinstance(..., int)` branch of
`BertConfig.__init__` (lines 184-195), attributes in assignment order. -/
def bertConfigInit (vocab_size hidden_size num_hidden_layers
    num_attention_heads : Int) (hidden_act : PyVal)
    (intermediate_size : Int)
    (hidden_dropout_prob attention_probs_dropout_prob : ℚ)
    (max_position_embeddings type_vocab_size : Int)
    (initializer_range : ℚ) : List (String × PyVal) :=
  [("vocab_size", .int vocab_size),
   ("hidden_size", .int hidden_size),
   ("num_hidden_layers", .int num_hidden_layers),
   ("num_attention_heads", .int num_attention_heads),
   ("hidden_act", hidden_act),
   ("intermediate_size", .int intermediate_size),
   ("hidden_dropout_prob", .float hidden_dropout_prob),
   ("attention_probs_dropout_prob", .float attention_probs_dropout_prob),
   ("max_position_embeddings", .int max_position_embeddings),
   ("type_vocab_size", .int type_vocab_size),
   ("initializer_range", .float initializer_range)]

/-- The `__dict__` of `BertConfig(vocab_size_or_config_json_file=-1)`:
all keyword defaults of `__init__`. -/
def defaultBertConfigDict : List (String × PyVal) :=
  bertConfigInit (-1) 768 12 12 (.str "gelu") 3072 (1 / 10) (1 / 10) 512 2
    (1 / 50)

/-- Translation of `BertConfig.to_dict`: `copy.deepcopy(self.__dict__)`,
a structural copy of the attribute dictionary. -/
def BertConfig.to_dict (d : List (String × PyVal)) :
    List (String × PyVal) :=
  d.map (fun kv => (kv.1, kv.2))

/-- Translation of `BertConfig.from_dict` (lines 200-206): start from
`BertConfig(vocab_size_or_config_json_file=-1)` and set every key-value
pair of `json_object` into its `__dict__`. -/
def BertConfig.from_dict (json_object : List (String × PyVal)) :
    List (String × PyVal) :=
  json_object.foldl (fun cfg kv => dictSet cfg kv.1 kv.2)
    defaultBertConfigDict

/-- Claim C2: for every input tensor `x`, the fallback
`BertLayerNorm.forward` returns `weight * (x - u) / sqrt(s +
variance_epsilon) + bias`, where `u` is the mean of `x` over the last
dimension and `s` is the mean over the last dimension of the squared
deviations from `u` — TF-style layer normalization with the epsilon inside
the square root. -/
theorem bertLayerNorm_forward_is_tf_style_layerNorm {n : ℕ}
    (sqrtF : ℚ → ℚ) (m : BertLayerNorm n) (x : Fin n → ℚ) :
    m.forward sqrtF x = layerNormTFStyle sqrtF m x := by
  funext i
  simp only [BertLayerNorm.forward, layerNormTFStyle]

theorem splitIdx_headIdx_offsetIdx {nh hs : ℕ} (i : Fin (nh * hs)) :
    splitIdx (headIdx i) (offsetIdx i) = i := by
  apply Fin.ext
  simp only [splitIdx, headIdx, offsetIdx]
  rw [Nat.mul_comm]
  exact Nat.div_add_mod i.val hs

/-- Claim C1: for every input hidden-states tensor and additive attention
mask, `BertSelfAttention.forward` computes, per attention head, raw scores
as the dot product of the query and key projections divided by the square
root of `attention_head_size`, adds the attention mask, normalizes with
softmax along the last dimension, and returns the heads' weighted sums of
the value projections concatenated back to `all_head_size` (dropout being
the identity in evaluation mode): the forward pass equals the published
scaled-dot-product multi-head attention definition. -/
theorem bertSelfAttention_forward_is_multi_head_attention
    {B S nh hs : ℕ} (expF : ℚ → ℚ) (sqrtHeadSize : ℚ)
    (m : BertSelfAttention nh hs)
    (hidden_states : Fin B → Fin S → Fin (nh * hs) → ℚ)
    (attention_mask : Fin B → Fin nh → Fin S → Fin S → ℚ) :
    m.forward expF sqrtHeadSize hidden_states attention_mask =
      scaledDotProductMultiHeadAttention expF sqrtHeadSize m hidden_states
        attention_mask := by
  funext b s i
  simp only [BertSelfAttention.forward, scaledDotProductMultiHeadAttention,
    transpose_for_scores, softmax]

/-- Claim C7: for every input, `BertLayer.forward` equals the standard
post-norm transformer block wiring: the attention sublayer output is the
layer-normalized sum of a linear projection of the self-attention result
and the sublayer input (residual connection), and the returned layer
output is the layer-normalized sum of the attention output and a linear
projection of the activation of a linear expansion of the attention
output (the feed-forward block with its residual connection). -/
theorem bertLayer_forward_is_post_norm_block {B S nh hs I : ℕ}
    (expF : ℚ → ℚ) (sqrtHeadSize : ℚ) (sqrtF : ℚ → ℚ)
    (m : BertLayer nh hs I)
    (hidden_states : Fin B → Fin S → Fin (nh * hs) → ℚ)
    (attention_mask : Fin B → Fin nh → Fin S → Fin S → ℚ) :
    m.forward expF sqrtHeadSize sqrtF hidden_states attention_mask =
      postNormTransformerBlock expF sqrtHeadSize sqrtF m hidden_states
        attention_mask := by
  funext b s
  simp only [BertLayer.forward, postNormTransformerBlock,
    BertAttention.forward, BertSelfOutput.forward, BertOutput.forward,
    BertIntermediate.forward]
  apply congrArg
  funext i
  exact add_comm _ _

/-- Claim C6 counterexample: not every experimental variant applies its
additional linear layers to the pooled output.  The two invocations of
`BertForTokenClassification.forwardLogits` below use the same classifier
weights and the same pooled output (identically zero) and differ only in
the sequence output, yet produce different logits — so the input of the
token-classification head's linear layer is the per-token sequence
output, not the pooled output. -/
theorem tokenClassification_head_not_on_pooled_output :
    BertForTokenClassification.forwardLogits (B := 1) (S := 1)
        (⟨fun _ _ => 1, fun _ => 0⟩ : LinearLayer 1 1)
        (fun _ _ _ => 1) (fun _ _ => 0) ≠
      BertForTokenClassification.forwardLogits
        (⟨fun _ _ => 1, fun _ => 0⟩ : LinearLayer 1 1)
        (fun _ _ _ => 0) (fun _ _ => 0) := by
  intro h
  have h0 := congrFun (congrFun (congrFun h 0) 0) 0
  simp [BertForTokenClassification.forwardLogits, LinearLayer.forward] at h0

/-- Claim C6 (amended): `BertForSequenceClassification` applies its
classifier to the pooled output of the underlying `BertModel`, while the
token-level variants `BertForTokenClassification` and
`BertForSimpleRelationExtraction_allwords` apply their additional linear
layers to the per-token sequence output of the last encoder layer
(`encode_2` acting on the flattened per-token `encode_1` values); the
pooled output is not read by the token-level heads. -/
theorem variant_linear_layer_inputs :
    (∀ (B S H L : ℕ) (classifier : LinearLayer H L)
      (sequence_output : Fin B → Fin S → Fin H → ℚ)
      (pooled_output : Fin B → Fin H → ℚ) (b : Fin B),
      BertForSequenceClassification.forwardLogits classifier
          sequence_output pooled_output b =
        classifier.forward (pooled_output b)) ∧
    (∀ (B S H L : ℕ) (classifier : LinearLayer H L)
      (sequence_output : Fin B → Fin S → Fin H → ℚ)
      (pooled_output : Fin B → Fin H → ℚ) (b : Fin B) (s : Fin S),
      BertForTokenClassification.forwardLogits classifier
          sequence_output pooled_output b s =
        classifier.forward (sequence_output b s)) ∧
    (∀ (B maxTok H R : ℕ) (encode_1 : LinearLayer H R)
      (encode_2 : LinearLayer (R * maxTok) R)
      (sequence_output : Fin B → Fin maxTok → Fin H → ℚ)
      (pooled_output : Fin B → Fin H → ℚ) (b : Fin B),
      BertForSimpleRelationExtraction_allwords.forwardOutput encode_1
          encode_2 sequence_output pooled_output b =
        encode_2.forward
          (flattenSR (fun s => encode_1.forward (sequence_output b s)))) :=
  ⟨fun _ _ _ _ _ _ _ _ => rfl, fun _ _ _ _ _ _ _ _ _ => rfl,
    fun _ _ _ _ _ _ _ _ _ => rfl⟩

theorem lookupAttr_updateAttrList_self (attrs : List (String × PyObj))
    (s : String) (c c' : PyObj) (h : lookupAttr attrs s = some c) :
    lookupAttr (updateAttrList attrs s c') s = some c' := by
  induction attrs with
  | nil => simp [lookupAttr] at h
  | cons kv rest ih =>
    obtain ⟨k, v⟩ := kv
    by_cases hk : k = s
    · simp [updateAttrList, hk, lookupAttr]
    · simp only [lookupAttr, if_neg hk] at h
      simp only [updateAttrList, if_neg hk, lookupAttr]
      exact ih h

theorem lookupAttr_updateAttrList_ne (attrs : List (String × PyObj))
    (s s' : String) (c' : PyObj) (h : s' ≠ s) :
    lookupAttr (updateAttrList attrs s c') s' = lookupAttr attrs s' := by
  induction attrs with
  | nil => simp [updateAttrList]
  | cons kv rest ih =>
    obtain ⟨k, v⟩ := kv
    by_cases hk : k = s
    · subst hk
    -- the key being replaced cannot be the key being read
      have hks : ¬ k = s' := fun hh => h (hh ▸ rfl)
      simp only [updateAttrList, if_pos rfl, lookupAttr]
      rw [if_neg hks, if_neg hks]
    · simp only [updateAttrList, if_neg hk, lookupAttr]
      by_cases hk' : k = s'
      · rw [if_pos hk', if_pos hk']
      · rw [if_neg hk', if_neg hk']
        exact ih

theorem getNth_setNth_self (items : List PyObj) (n : ℕ) (c c' : PyObj)
    (h : getNth items n = some c) :
    getNth (setNth items n c') n = some c' := by
  induction items generalizing n with
  | nil => simp [getNth] at h
  | cons x rest ih =>
    cases n with
    | zero => simp [getNth, setNth]
    | succ k =>
      simp only [getNth, setNth] at h ⊢
      exact ih k h

theorem getNth_setNth_ne (items : List PyObj) (n n' : ℕ) (c' : PyObj)
    (h : n' ≠ n) : getNth (setNth items n c') n' = getNth items n' := by
  induction items generalizing n n' with
  | nil => simp [setNth]
  | cons x rest ih =>
    cases n with
    | zero =>
      cases n' with
      | zero => exact absurd rfl h
      | succ k => simp [getNth, setNth]
    | succ k =>
      cases n' with
      | zero => simp [getNth, setNth]
      | succ k' =>
        simp only [getNth, setNth]
        exact ih k k' (fun hh => h (by rw [hh]))

theorem updatePath_isSome_of_param (q : List Step) (m : PyObj)
    (t0 t : TensorData) (h : resolvePath m q = some (.param t0)) :
    ∃ m', updatePath m q t = some m' := by
  induction q generalizing m with
  | nil =>
    simp only [resolvePath, Option.some.injEq] at h
    subst h
    exact ⟨.param t, rfl⟩
  | cons st rest ih =>
    cases m with
    | param t1 => cases st <;> simp [resolvePath, resolveStep] at h
    | module attrs =>
      cases st with
      | attr s =>
        simp only [resolvePath, resolveStep] at h
        cases hl : lookupAttr attrs s with
        | none => rw [hl] at h; simp at h
        | some child =>
          rw [hl] at h
          simp only [Option.some_bind] at h
          obtain ⟨c', hc'⟩ := ih child h
          exact ⟨.module (updateAttrList attrs s c'),
            by simp [updatePath, hl, hc']⟩
      | idx n => simp [resolvePath, resolveStep] at h
    | modlist items =>
      cases st with
      | attr s => simp [resolvePath, resolveStep] at h
      | idx n =>
        simp only [resolvePath, resolveStep] at h
        cases hl : getNth items n with
        | none => rw [hl] at h; simp at h
        | some child =>
          rw [hl] at h
          simp only [Option.some_bind] at h
          obtain ⟨c', hc'⟩ := ih child h
          exact ⟨.modlist (setNth items n c'), by simp [updatePath, hl, hc']⟩

theorem resolvePath_updatePath_self (q : List Step) (m m' : PyObj)
    (t : TensorData) (h : updatePath m q t = some m') :
    resolvePath m' q = some (.param t) := by
  induction q generalizing m m' with
  | nil =>
    cases m with
    | param t0 =>
      simp only [updatePath, Option.some.injEq] at h
      subst h
      rfl
    | module attrs => simp [updatePath] at h
    | modlist items => simp [updatePath] at h
  | cons st rest ih =>
    cases m with
    | param t0 => cases st <;> simp [updatePath] at h
    | module attrs =>
      cases st with
      | attr s =>
        simp only [updatePath] at h
        cases hl : lookupAttr attrs s with
        | none => rw [hl] at h; simp at h
        | some child =>
          rw [hl] at h
          simp only [Option.some_bind, Option.map_eq_some'] at h
          obtain ⟨c', hu, hm⟩ := h
          subst hm
          simp only [resolvePath, resolveStep]
          rw [lookupAttr_updateAttrList_self attrs s child c' hl]
          simp only [Option.some_bind]
          exact ih child c' hu
      | idx n => simp [updatePath] at h
    | modlist items =>
      cases st with
      | attr s => simp [updatePath] at h
      | idx n =>
        simp only [updatePath] at h
        cases hl : getNth items n with
        | none => rw [hl] at h; simp at h
        | some child =>
          rw [hl] at h
          simp only [Option.some_bind, Option.map_eq_some'] at h
          obtain ⟨c', hu, hm⟩ := h
          subst hm
          simp only [resolvePath, resolveStep]
          rw [getNth_setNth_self items n child c' hl]
          simp only [Option.some_bind]
          exact ih child c' hu

theorem isStepPrefixOf_cons_same (a : Step) (p q : List Step) :
    isStepPrefixOf (a :: p) (a :: q) = isStepPrefixOf p q := by
  simp [isStepPrefixOf]

theorem resolvePath_updatePath_frame (q : List Step) (m m' : PyObj)
    (t : TensorData) (h : updatePath m q t = some m') (p : List Step)
    (hp : isStepPrefixOf p q = false) :
    resolvePath m' p = resolvePath m p := by
  induction q generalizing m m' p with
  | nil =>
    cases m with
    | param t0 =>
      simp only [updatePath, Option.some.injEq] at h
      subst h
      cases p with
      | nil => simp [isStepPrefixOf] at hp
      | cons st p' => cases st <;> simp [resolvePath, resolveStep]
    | module attrs => simp [updatePath] at h
    | modlist items => simp [updatePath] at h
  | cons st rest ih =>
    cases m with
    | param t0 => cases st <;> simp [updatePath] at h
    | module attrs =>
      cases st with
      | attr s =>
        simp only [updatePath] at h
        cases hl : lookupAttr attrs s with
        | none => rw [hl] at h; simp at h
        | some child =>
          rw [hl] at h
          simp only [Option.some_bind, Option.map_eq_some'] at h
          obtain ⟨c', hu, hm⟩ := h
          subst hm
          cases p with
          | nil => simp [isStepPrefixOf] at hp
          | cons st' p' =>
            cases st' with
            | attr s2 =>
              by_cases hs : s2 = s
              · subst hs
                rw [isStepPrefixOf_cons_same] at hp
                simp only [resolvePath, resolveStep]
                rw [lookupAttr_updateAttrList_self attrs s2 child c' hl, hl]
                simp only [Option.some_bind]
                exact ih child c' hu p' hp
              · simp only [resolvePath, resolveStep]
                rw [lookupAttr_updateAttrList_ne attrs s s2 c' hs]
            | idx n => simp [resolvePath, resolveStep]
      | idx n => simp [updatePath] at h
    | modlist items =>
      cases st with
      | attr s => simp [updatePath] at h
      | idx n =>
        simp only [updatePath] at h
        cases hl : getNth items n with
        | none => rw [hl] at h; simp at h
        | some child =>
          rw [hl] at h
          simp only [Option.some_bind, Option.map_eq_some'] at h
          obtain ⟨c', hu, hm⟩ := h
          subst hm
          cases p with
          | nil => simp [isStepPrefixOf] at hp
          | cons st' p' =>
            cases st' with
            | attr s2 => simp [resolvePath, resolveStep]
            | idx n2 =>
              by_cases hn : n2 = n
              · subst hn
                rw [isStepPrefixOf_cons_same] at hp
                simp only [resolvePath, resolveStep]
                rw [getNth_setNth_self items n2 child c' hl, hl]
                simp only [Option.some_bind]
                exact ih child c' hu p' hp
              · simp only [resolvePath, resolveStep]
                rw [getNth_setNth_ne items n n2 c' hn]

theorem resolvePath_append (m : PyObj) (p r : List Step) :
    resolvePath m (p ++ r) =
      (resolvePath m p).bind (fun o => resolvePath o r) := by
  induction p generalizing m with
  | nil => simp [resolvePath]
  | cons st p' ih =>
    simp only [List.cons_append, resolvePath]
    cases hst : resolveStep m st with
    | none => simp
    | some o => simp [ih o]

theorem eq_append_of_isStepPrefixOf (p q : List Step)
    (h : isStepPrefixOf p q = true) : ∃ r, q = p ++ r := by
  induction p generalizing q with
  | nil => exact ⟨q, rfl⟩
  | cons a p' ih =>
    cases q with
    | nil => simp [isStepPrefixOf] at h
    | cons b q' =>
      simp only [isStepPrefixOf, Bool.and_eq_true, decide_eq_true_eq] at h
      obtain ⟨rfl, h2⟩ := h
      obtain ⟨r, rfl⟩ := ih q' h2
      exact ⟨r, rfl⟩

theorem paramShapeAt_none_of_resolve_extends (m : PyObj) (p : List Step)
    (st : Step) (r : List Step) (x : PyObj)
    (hx : resolvePath m (p ++ st :: r) = some x) :
    paramShapeAt m p = none := by
  unfold paramShapeAt
  cases hA : resolvePath m p with
  | none => rfl
  | some o =>
    cases o with
    | param t =>
      rw [resolvePath_append, hA] at hx
      simp only [Option.some_bind] at hx
      cases st <;> simp [resolvePath, resolveStep] at hx
    | module attrs => rfl
    | modlist items => rfl

theorem processVar_ok_elim (model : PyObj) (name : List String)
    (array : TensorData) (m' : PyObj)
    (h : processVar model name array = .ok m') :
    ∃ t, resolvePath model (targetSteps name) = some (.param t) ∧
      t.shape = (targetTensor name array).shape ∧
      updatePath model (targetSteps name) (targetTensor name array) =
        some m' := by
  revert h
  simp only [processVar]
  cases hres : resolvePath model (targetSteps name) with
  | none => intro h; simp at h
  | some obj =>
    cases obj with
    | param t =>
      intro h
      dsimp only at h
      by_cases hsh : t.shape = (targetTensor name array).shape
      · rw [if_pos hsh] at h
        cases hup : updatePath model (targetSteps name)
            (targetTensor name array) with
        | none => rw [hup] at h; simp at h
        | some m1 =>
          rw [hup] at h
          simp only [Except.ok.injEq] at h
          subst h
          exact ⟨t, rfl, hsh, rfl⟩
      · rw [if_neg hsh] at h
        simp at h
    | module attrs => intro h; simp at h
    | modlist items => intro h; simp at h

theorem processVar_ok_of_shape (model : PyObj) (name : List String)
    (array : TensorData)
    (h : paramShapeAt model (targetSteps name) =
      some (targetTensor name array).shape) :
    ∃ m', processVar model name array = .ok m' := by
  unfold paramShapeAt at h
  cases hres : resolvePath model (targetSteps name) with
  | none => rw [hres] at h; simp at h
  | some obj =>
    rw [hres] at h
    cases obj with
    | param t =>
      simp only [Option.some.injEq] at h
      obtain ⟨m1, hup⟩ :=
        updatePath_isSome_of_param _ _ t (targetTensor name array) hres
      exact ⟨m1, by simp [processVar, hres, h, hup]⟩
    | module attrs => simp at h
    | modlist items => simp at h

theorem processVar_error_of_mismatch (model : PyObj) (name : List String)
    (array : TensorData) (s : List ℕ)
    (hs : paramShapeAt model (targetSteps name) = some s)
    (hne : s ≠ (targetTensor name array).shape) :
    processVar model name array =
      .error (.shapeMismatch s (targetTensor name array).shape) := by
  unfold paramShapeAt at hs
  cases hres : resolvePath model (targetSteps name) with
  | none => rw [hres] at hs; simp at hs
  | some obj =>
    rw [hres] at hs
    cases obj with
    | param t =>
      simp only [Option.some.injEq] at hs
      subst hs
      simp [processVar, hres, hne]
    | module attrs => simp at hs
    | modlist items => simp at hs

theorem processVar_frame (model : PyObj) (name : List String)
    (array : TensorData) (m' : PyObj)
    (h : processVar model name array = .ok m') (p : List Step)
    (hp : isStepPrefixOf p (targetSteps name) = false) :
    resolvePath m' p = resolvePath model p := by
  obtain ⟨t, hres, hsh, hup⟩ := processVar_ok_elim model name array m' h
  exact resolvePath_updatePath_frame _ _ _ _ hup p hp

theorem processVar_paramShapeAt (model : PyObj) (name : List String)
    (array : TensorData) (m' : PyObj)
    (h : processVar model name array = .ok m') (p : List Step) :
    paramShapeAt m' p = paramShapeAt model p := by
  obtain ⟨t, hres, hsh, hup⟩ := processVar_ok_elim model name array m' h
  by_cases hp : isStepPrefixOf p (targetSteps name) = true
  · obtain ⟨r, hr⟩ := eq_append_of_isStepPrefixOf _ _ hp
    cases r with
    | nil =>
      rw [List.append_nil] at hr
      rw [← hr]
      unfold paramShapeAt
      rw [resolvePath_updatePath_self _ _ _ _ hup, hres]
      simp [hsh]
    | cons st r' =>
      have hres2 : resolvePath model (p ++ st :: r') = some (.param t) := by
        rw [← hr]
        exact hres
      have hself2 : resolvePath m' (p ++ st :: r') =
          some (PyObj.param (targetTensor name array)) := by
        rw [← hr]
        exact resolvePath_updatePath_self _ _ _ _ hup
      rw [paramShapeAt_none_of_resolve_extends model p st r' _ hres2,
        paramShapeAt_none_of_resolve_extends m' p st r' _ hself2]
  · have hp' : isStepPrefixOf p (targetSteps name) = false := by
      cases hq : isStepPrefixOf p (targetSteps name)
      · rfl
      · exact absurd hq hp
    unfold paramShapeAt
    rw [resolvePath_updatePath_frame _ _ _ _ hup p hp']

theorem load_all_skipped (tfVars : List (List String × TensorData)) :
    ∀ model, (∀ v ∈ tfVars, isSkipped v.1 = true) →
    load_tf_weights_in_bert model tfVars = .ok model := by
  induction tfVars with
  | nil => intro model _; rfl
  | cons v rest ih =>
    intro model h
    obtain ⟨name, array⟩ := v
    have hsk : isSkipped name = true := h (name, array) (List.mem_cons_self _ _)
    simp only [load_tf_weights_in_bert, hsk, if_true]
    exact ih model (fun w hw => h w (List.mem_cons_of_mem _ hw))

theorem load_resolve_frame (tfVars : List (List String × TensorData)) :
    ∀ (model m' : PyObj) (p : List Step),
      load_tf_weights_in_bert model tfVars = .ok m' →
      (∀ v ∈ tfVars, isSkipped v.1 = false →
        isStepPrefixOf p (targetSteps v.1) = false) →
      resolvePath m' p = resolvePath model p := by
  induction tfVars with
  | nil =>
    intro model m' p h _
    simp only [load_tf_weights_in_bert, Except.ok.injEq] at h
    subst h
    rfl
  | cons v rest ih =>
    intro model m' p h hfr
    obtain ⟨name, array⟩ := v
    simp only [load_tf_weights_in_bert] at h
    cases hsk : isSkipped name with
    | true =>
      rw [hsk] at h
      simp only [if_true] at h
      exact ih model m' p h
        (fun w hw hns => hfr w (List.mem_cons_of_mem _ hw) hns)
    | false =>
      rw [hsk] at h
      simp only [Bool.false_eq_true, if_false] at h
      cases hpv : processVar model name array with
      | error e => rw [hpv] at h; simp at h
      | ok m1 =>
        rw [hpv] at h
        dsimp only at h
        have hfrh := hfr (name, array) (List.mem_cons_self _ _) hsk
        have hframe := processVar_frame model name array m1 hpv p hfrh
        have hrest := ih m1 m' p h
          (fun w hw hns => hfr w (List.mem_cons_of_mem _ hw) hns)
        rw [hrest, hframe]

theorem load_ok_of_all_match (tfVars : List (List String × TensorData)) :
    ∀ model,
      (∀ v ∈ tfVars, isSkipped v.1 = false →
        paramShapeAt model (targetSteps v.1) =
          some (targetTensor v.1 v.2).shape) →
      ∃ m', load_tf_weights_in_bert model tfVars = .ok m' := by
  induction tfVars with
  | nil => intro model _; exact ⟨model, rfl⟩
  | cons v rest ih =>
    intro model hall
    obtain ⟨name, array⟩ := v
    cases hsk : isSkipped name with
    | true =>
      obtain ⟨m', hm'⟩ :=
        ih model (fun w hw hns => hall w (List.mem_cons_of_mem _ hw) hns)
      exact ⟨m', by simp [load_tf_weights_in_bert, hsk, hm']⟩
    | false =>
      have hv := hall (name, array) (List.mem_cons_self _ _) hsk
      obtain ⟨m1, hm1⟩ := processVar_ok_of_shape model name array hv
      obtain ⟨m', hm'⟩ := ih m1 (fun w hw hns => by
        rw [processVar_paramShapeAt model name array m1 hm1]
        exact hall w (List.mem_cons_of_mem _ hw) hns)
      exact ⟨m', by simp [load_tf_weights_in_bert, hsk, hm1, hm']⟩

theorem load_shapeError_iff (tfVars : List (List String × TensorData)) :
    ∀ model,
      (∀ v ∈ tfVars, isSkipped v.1 = false →
        (paramShapeAt model (targetSteps v.1)).isSome = true) →
      (isShapeError (load_tf_weights_in_bert model tfVars) = true ↔
        ∃ v ∈ tfVars, isSkipped v.1 = false ∧
          paramShapeAt model (targetSteps v.1) ≠
            some (targetTensor v.1 v.2).shape) := by
  induction tfVars with
  | nil =>
    intro model _
    constructor
    · intro h
      exact absurd h (by simp [load_tf_weights_in_bert, isShapeError])
    · rintro ⟨w, hw, _⟩
      simp at hw
  | cons v rest ih =>
    intro model hwf
    obtain ⟨name, array⟩ := v
    cases hsk : isSkipped name with
    | true =>
      have heq : load_tf_weights_in_bert model ((name, array) :: rest) =
          load_tf_weights_in_bert model rest := by
        simp [load_tf_weights_in_bert, hsk]
      rw [heq,
        ih model (fun w hw hns => hwf w (List.mem_cons_of_mem _ hw) hns)]
      constructor
      · rintro ⟨w, hw, hns, hne⟩
        exact ⟨w, List.mem_cons_of_mem _ hw, hns, hne⟩
      · rintro ⟨w, hw, hns, hne⟩
        rcases List.mem_cons.mp hw with rfl | hw'
        · rw [hsk] at hns
          exact absurd hns (by simp)
        · exact ⟨w, hw', hns, hne⟩
    | false =>
      have hv := hwf (name, array) (List.mem_cons_self _ _) hsk
      obtain ⟨s, hs⟩ : ∃ s, paramShapeAt model (targetSteps name) = some s :=
        Option.isSome_iff_exists.mp hv
      by_cases hmatch : s = (targetTensor name array).shape
      · subst hmatch
        obtain ⟨m1, hm1⟩ := processVar_ok_of_shape model name array hs
        have heq : load_tf_weights_in_bert model ((name, array) :: rest) =
            load_tf_weights_in_bert m1 rest := by
          simp [load_tf_weights_in_bert, hsk, hm1]
        rw [heq, ih m1 (fun w hw hns => by
          rw [processVar_paramShapeAt model name array m1 hm1]
          exact hwf w (List.mem_cons_of_mem _ hw) hns)]
        constructor
        · rintro ⟨w, hw, hns, hne⟩
          refine ⟨w, List.mem_cons_of_mem _ hw, hns, ?_⟩
          rw [← processVar_paramShapeAt model name array m1 hm1]
          exact hne
        · rintro ⟨w, hw, hns, hne⟩
          rcases List.mem_cons.mp hw with rfl | hw'
          · exact absurd hs hne
          · refine ⟨w, hw', hns, ?_⟩
            rw [processVar_paramShapeAt model name array m1 hm1]
            exact hne
      · have herr := processVar_error_of_mismatch model name array s hs hmatch
        have heq : load_tf_weights_in_bert model ((name, array) :: rest) =
            .error (.shapeMismatch s (targetTensor name array).shape) := by
          simp [load_tf_weights_in_bert, hsk, herr]
        rw [heq]
        simp only [isShapeError]
        constructor
        · intro _
          refine ⟨(name, array), List.mem_cons_self _ _, hsk, ?_⟩
          rw [hs]
          simp [hmatch]
        · intro _
          trivial

theorem load_assigns (tfVars : List (List String × TensorData)) :
    ∀ model,
      (∀ v ∈ tfVars, isSkipped v.1 = false →
        paramShapeAt model (targetSteps v.1) =
          some (targetTensor v.1 v.2).shape) →
      ((tfVars.filter (fun v => !isSkipped v.1)).map
        (fun v => targetSteps v.1)).Nodup →
      ∃ m', load_tf_weights_in_bert model tfVars = .ok m' ∧
        ∀ v ∈ tfVars, isSkipped v.1 = false →
          resolvePath m' (targetSteps v.1) =
            some (.param (targetTensor v.1 v.2)) := by
  induction tfVars with
  | nil =>
    intro model _ _
    exact ⟨model, rfl, by simp⟩
  | cons v rest ih =>
    intro model hall hnd
    obtain ⟨name, array⟩ := v
    cases hsk : isSkipped name with
    | true =>
      rw [List.filter_cons] at hnd
      simp only [hsk] at hnd
      obtain ⟨m', hm', hres⟩ :=
        ih model (fun w hw hns => hall w (List.mem_cons_of_mem _ hw) hns) hnd
      refine ⟨m', by simp [load_tf_weights_in_bert, hsk, hm'], ?_⟩
      intro w hw hns
      rcases List.mem_cons.mp hw with rfl | hw'
      · rw [hsk] at hns
        exact absurd hns (by simp)
      · exact hres w hw' hns
    | false =>
      have hv := hall (name, array) (List.mem_cons_self _ _) hsk
      obtain ⟨m1, hm1⟩ := processVar_ok_of_shape model name array hv
      rw [List.filter_cons] at hnd
      simp only [hsk, Bool.not_false, if_true, List.map_cons,
        List.nodup_cons] at hnd
      obtain ⟨hnotin, hnd'⟩ := hnd
      obtain ⟨m', hm', hres⟩ := ih m1 (fun w hw hns => by
        rw [processVar_paramShapeAt model name array m1 hm1]
        exact hall w (List.mem_cons_of_mem _ hw) hns) hnd'
      refine ⟨m', by simp [load_tf_weights_in_bert, hsk, hm1, hm'], ?_⟩
      intro w hw hns
      rcases List.mem_cons.mp hw with rfl | hw'
      · have hass : resolvePath m1 (targetSteps name) =
            some (.param (targetTensor name array)) := by
          obtain ⟨t, hres0, hsh0, hup0⟩ :=
            processVar_ok_elim model name array m1 hm1
          exact resolvePath_updatePath_self _ _ _ _ hup0
        have hframe : resolvePath m' (targetSteps name) =
            resolvePath m1 (targetSteps name) := by
          apply load_resolve_frame rest m1 m' (targetSteps name) hm'
          intro w' hw' hns'
          cases hq : isStepPrefixOf (targetSteps name) (targetSteps w'.1) with
          | false => rfl
          | true =>
            exfalso
            obtain ⟨r, hr⟩ := eq_append_of_isStepPrefixOf _ _ hq
            have hneq : targetSteps w'.1 ≠ targetSteps name := by
              intro hcontra
              exact hnotin (List.mem_map.mpr
                ⟨w', List.mem_filter.mpr ⟨hw', by simp [hns']⟩, hcontra⟩)
            cases r with
            | nil =>
              rw [List.append_nil] at hr
              exact hneq hr
            | cons st r' =>
              have hass : resolvePath m1 (targetSteps name) =
                  some (.param (targetTensor name array)) := by
                obtain ⟨t, hres0, hsh0, hup0⟩ :=
                  processVar_ok_elim model name array m1 hm1
                exact resolvePath_updatePath_self _ _ _ _ hup0
              have hw1 : paramShapeAt m1 (targetSteps w'.1) =
                  some (targetTensor w'.1 w'.2).shape := by
                rw [processVar_paramShapeAt model name array m1 hm1]
                exact hall w' (List.mem_cons_of_mem _ hw') hns'
              have hnone : paramShapeAt m1 (targetSteps w'.1) = none := by
                unfold paramShapeAt
                rw [hr, resolvePath_append, hass]
                simp only [Option.some_bind]
                cases st <;> simp [resolvePath, resolveStep]
              rw [hnone] at hw1
              exact absurd hw1 (by simp)
        rw [hframe]
        exact hass
      · exact hres w hw' hns

/-- Claim C3: in `load_tf_weights_in_bert`, for every non-skipped
variable, each slash-separated name component equal to `kernel`,
`gamma`, or `output_weights` selects the module's `weight` attribute,
each component equal to `output_bias` or `beta` selects the `bias`
attribute, a component fully matching letters-underscore-digits
additionally indexes the submodule list by its trailing number, and when
the final component is `kernel` the loaded array is transposed before
being assigned. -/
theorem load_name_component_mapping :
    (∀ m : String, m = "kernel" ∨ m = "gamma" ∨ m = "output_weights" →
      stepOf m = [Step.attr "weight"]) ∧
    (∀ m : String, m = "output_bias" ∨ m = "beta" →
      stepOf m = [Step.attr "bias"]) ∧
    (∀ (m a : String) (k : ℕ), matchLayerNum m = some (a, k) →
      stepOf m = [attrStepOf a, Step.idx k]) ∧
    (∀ (name : List String) (array : TensorData),
      name.getLast? = some "kernel" →
      targetTensor name array = array.transpose) := by
  refine ⟨?_, ?_, ?_, ?_⟩
  · intro m hm
    rcases hm with rfl | rfl | rfl <;> rfl
  · intro m hm
    rcases hm with rfl | rfl <;> rfl
  · intro m a k hmk
    simp [stepOf, hmk]
  · intro name array hlast
    have hemb : lastElevenIsEmbeddings "kernel" = false := by decide
    simp [targetTensor, hlast, hemb]

/-- Witness for C3 at concrete name components. -/
theorem load_name_component_mapping_witness :
    stepOf "gamma" = [Step.attr "weight"] ∧
    stepOf "beta" = [Step.attr "bias"] ∧
    stepOf "layer_11" = [attrStepOf "layer", Step.idx 11] ∧
    targetTensor ["bert", "kernel"] ⟨[2, 3], fun _ => 0⟩ =
      TensorData.transpose ⟨[2, 3], fun _ => 0⟩ := by
  refine ⟨?_, ?_, ?_, ?_⟩
  · exact load_name_component_mapping.1 "gamma" (Or.inr (Or.inl rfl))
  · exact load_name_component_mapping.2.1 "beta" (Or.inr rfl)
  · exact load_name_component_mapping.2.2.1 "layer_11" "layer" 11 (by decide)
  · exact load_name_component_mapping.2.2.2 ["bert", "kernel"] _ rfl

/-- Claim C4: when every non-skipped checkpoint variable resolves to a
parameter, `load_tf_weights_in_bert` raises the shape `AssertionError`
(augmented with the two shapes in `LoadError.shapeMismatch`) if and only
if some non-skipped variable's resolved parameter shape differs from the
shape of its (possibly transposed) loaded array; when no such mismatch
exists, the load returns the model, and (when the non-skipped target
paths are distinct) every non-skipped array has been assigned to its
resolved parameter. -/
theorem load_assertion_iff_shape_mismatch
    (model : PyObj) (tfVars : List (List String × TensorData))
    (hwf : ∀ v ∈ tfVars, isSkipped v.1 = false →
      (paramShapeAt model (targetSteps v.1)).isSome = true) :
    (isShapeError (load_tf_weights_in_bert model tfVars) = true ↔
      ∃ v ∈ tfVars, isSkipped v.1 = false ∧
        paramShapeAt model (targetSteps v.1) ≠
          some (targetTensor v.1 v.2).shape) ∧
    ((∀ v ∈ tfVars, isSkipped v.1 = false →
        paramShapeAt model (targetSteps v.1) =
          some (targetTensor v.1 v.2).shape) →
      (∃ m', load_tf_weights_in_bert model tfVars = .ok m') ∧
      (((tfVars.filter (fun v => !isSkipped v.1)).map
          (fun v => targetSteps v.1)).Nodup →
        ∃ m', load_tf_weights_in_bert model tfVars = .ok m' ∧
          ∀ v ∈ tfVars, isSkipped v.1 = false →
            resolvePath m' (targetSteps v.1) =
              some (.param (targetTensor v.1 v.2)))) :=
  ⟨load_shapeError_iff tfVars model hwf,
    fun hall => ⟨load_ok_of_all_match tfVars model hall,
      fun hnd => load_assigns tfVars model hall hnd⟩⟩

/-- Witness for C4: a one-parameter model and a one-variable checkpoint
whose shapes disagree make the load report the shape mismatch. -/
theorem load_assertion_iff_shape_mismatch_witness :
    (∀ v ∈ ([(["bert"], (⟨[3], fun _ => 1⟩ : TensorData))] :
        List (List String × TensorData)),
      isSkipped v.1 = false →
      (paramShapeAt (PyObj.module [("bert", PyObj.param ⟨[2], fun _ => 0⟩)])
        (targetSteps v.1)).isSome = true) ∧
    isShapeError (load_tf_weights_in_bert
      (PyObj.module [("bert", PyObj.param ⟨[2], fun _ => 0⟩)])
      [(["bert"], ⟨[3], fun _ => 1⟩)]) = true := by
  have hwf : ∀ v ∈ ([(["bert"], (⟨[3], fun _ => 1⟩ : TensorData))] :
      List (List String × TensorData)),
      isSkipped v.1 = false →
      (paramShapeAt (PyObj.module [("bert", PyObj.param ⟨[2], fun _ => 0⟩)])
        (targetSteps v.1)).isSome = true := by
    intro v hv hns
    rw [List.mem_singleton] at hv
    subst hv
    decide
  refine ⟨hwf, ?_⟩
  exact (load_assertion_iff_shape_mismatch
      (PyObj.module [("bert", PyObj.param ⟨[2], fun _ => 0⟩)])
      [(["bert"], ⟨[3], fun _ => 1⟩)] hwf).1.mpr
    ⟨(["bert"], ⟨[3], fun _ => 1⟩), List.mem_singleton.mpr rfl, by decide,
      by decide⟩

/-- Claim C5: checkpoint variables whose split name contains an `adam_v`
or `adam_m` component cause no assignment: any location not written by a
non-skipped variable resolves after a successful load exactly as before,
and a checkpoint of only optimizer variables returns the model
unchanged. -/
theorem load_skips_optimizer_variables :
    (∀ (model m' : PyObj) (tfVars : List (List String × TensorData))
      (p : List Step),
      load_tf_weights_in_bert model tfVars = .ok m' →
      (∀ v ∈ tfVars, isSkipped v.1 = false →
        isStepPrefixOf p (targetSteps v.1) = false) →
      resolvePath m' p = resolvePath model p) ∧
    (∀ (model : PyObj) (tfVars : List (List String × TensorData)),
      (∀ v ∈ tfVars, isSkipped v.1 = true) →
      load_tf_weights_in_bert model tfVars = .ok model) :=
  ⟨fun model m' tfVars p h hfr => load_resolve_frame tfVars model m' p h hfr,
    fun model tfVars h => load_all_skipped tfVars model h⟩

/-- Witness for C5: loading a checkpoint with an `adam_v` variable and
one real variable leaves the parameter only the skipped variable would
have written unchanged. -/
theorem load_skips_optimizer_variables_witness :
    load_tf_weights_in_bert
        (PyObj.module [("cls", PyObj.param ⟨[2], fun _ => 0⟩),
          ("dense", PyObj.param ⟨[3], fun _ => 0⟩)])
        [(["adam_v"], ⟨[9], fun _ => 7⟩), (["dense"], ⟨[3], fun _ => 5⟩)] =
      Except.ok (PyObj.module [("cls", PyObj.param ⟨[2], fun _ => 0⟩),
        ("dense", PyObj.param ⟨[3], fun _ => 5⟩)]) ∧
    resolvePath (PyObj.module [("cls", PyObj.param ⟨[2], fun _ => 0⟩),
        ("dense", PyObj.param ⟨[3], fun _ => 5⟩)]) [Step.attr "cls"] =
      resolvePath (PyObj.module [("cls", PyObj.param ⟨[2], fun _ => 0⟩),
        ("dense", PyObj.param ⟨[3], fun _ => 0⟩)]) [Step.attr "cls"] := by
  refine ⟨rfl, ?_⟩
  refine load_skips_optimizer_variables.1 _ _
    [(["adam_v"], ⟨[9], fun _ => 7⟩), (["dense"], ⟨[3], fun _ => 5⟩)]
    [Step.attr "cls"] rfl ?_
  intro v hv hns
  rcases List.mem_cons.mp hv with rfl | hv'
  · exact absurd hns (by decide)
  · rw [List.mem_singleton] at hv'
    subst hv'
    decide

/-- Claim C8 counterexample: the code's activation is not a bare
framework primitive.  Instantiating the primitive error function with the
identity and the scalar `math.sqrt(2.0)` with `2`, the `gelu` defined in
this code differs at `x = 1` from the primitive it calls — `gelu` is an
explicit formula composed in this repository, not a direct framework
call. -/
theorem gelu_is_not_the_framework_primitive :
    gelu (fun t => t) 2 1 ≠ (fun t : ℚ => t) 1 := by
  norm_num [gelu]

/-- Claim C8 (amended): matrix multiply, softmax and dropout are direct
framework calls, but the activation and the fallback normalization used
in the forward pass are formulas defined in this code from framework
scalar primitives: `gelu(x) = x * 0.5 * (1 + erf(x / sqrt 2))`, and the
fallback `BertLayerNorm.forward` computes the TF-style normalization
formula from mean, power and square-root primitives. -/
theorem activation_and_normalization_are_formulas_in_code :
    (∀ (erf : ℚ → ℚ) (sqrtTwo x : ℚ),
      gelu erf sqrtTwo x = x * (1 / 2) * (1 + erf (x / sqrtTwo))) ∧
    (∀ (n : ℕ) (sqrtF : ℚ → ℚ) (m : BertLayerNorm n) (x : Fin n → ℚ),
      m.forward sqrtF x = layerNormTFStyle sqrtF m x) := by
  constructor
  · intro erf sqrtTwo x
    rfl
  · intro n sqrtF m x
    funext i
    simp only [BertLayerNorm.forward, layerNormTFStyle]

/-- Claim C9: `BertSelfAttention.__init__` raises a `ValueError` if and
only if `hidden_size` is not an integer multiple of
`num_attention_heads`; when it does not raise, the constructed module
satisfies `all_head_size = num_attention_heads * attention_head_size =
hidden_size`; and `BertModel.__init__` (through `BertEncoder`,
`BertLayer` and `BertAttention`) raises exactly when the self-attention
constructor does. -/
theorem bertSelfAttentionInit_valueError_iff (h n : ℕ) (hn : 0 < n) :
    (isInitError (bertSelfAttentionInit h n) = true ↔ ¬ n ∣ h) ∧
    (∀ r, bertSelfAttentionInit h n = .ok r →
      r.all_head_size = h ∧
      r.all_head_size = r.num_attention_heads * r.attention_head_size) ∧
    bertModelInit h n = bertSelfAttentionInit h n := by
  refine ⟨⟨?_, ?_⟩, ?_, rfl⟩
  · intro herr hdvd
    have hmod : h % n = 0 := Nat.dvd_iff_mod_eq_zero.mp hdvd
    simp [bertSelfAttentionInit, hmod, isInitError] at herr
  · intro hnd
    have hmod : h % n ≠ 0 := fun hm => hnd (Nat.dvd_of_mod_eq_zero hm)
    simp [bertSelfAttentionInit, hmod, isInitError]
  · intro r hr
    by_cases hmod : h % n = 0
    · simp only [bertSelfAttentionInit, hmod, ne_eq, not_true_eq_false,
        if_false, Except.ok.injEq] at hr
      subst hr
      refine ⟨?_, rfl⟩
      exact Nat.mul_div_cancel' (Nat.dvd_of_mod_eq_zero hmod)
    · simp [bertSelfAttentionInit, hmod] at hr

/-- Witness for C9 at the BERT-base configuration (768 hidden, 12
heads). -/
theorem bertSelfAttentionInit_valueError_iff_witness :
    (0 : ℕ) < 12 ∧
    ((isInitError (bertSelfAttentionInit 768 12) = true ↔ ¬ 12 ∣ 768) ∧
      (∀ r, bertSelfAttentionInit 768 12 = .ok r →
        r.all_head_size = 768 ∧
        r.all_head_size = r.num_attention_heads * r.attention_head_size) ∧
      bertModelInit 768 12 = bertSelfAttentionInit 768 12) :=
  ⟨by decide, bertSelfAttentionInit_valueError_iff 768 12 (by decide)⟩

/-- Claim C10: for every `BertConfig` constructed from an integer
vocabulary size, `from_dict (to_dict c)` rebuilds exactly `c`'s attribute
dictionary (a round trip), and `to_dict` returns a (deep) copy equal in
value to the attribute dictionary, so in this value semantics mutating
the returned dictionary cannot change `c`'s attributes. -/
theorem bertConfig_from_dict_to_dict_roundtrip
    (vocab_size hidden_size num_hidden_layers num_attention_heads : Int)
    (hidden_act : PyVal) (intermediate_size : Int)
    (hidden_dropout_prob attention_probs_dropout_prob : ℚ)
    (max_position_embeddings type_vocab_size : Int)
    (initializer_range : ℚ) :
    BertConfig.from_dict (BertConfig.to_dict (bertConfigInit vocab_size
        hidden_size num_hidden_layers num_attention_heads hidden_act
        intermediate_size hidden_dropout_prob attention_probs_dropout_prob
        max_position_embeddings type_vocab_size initializer_range)) =
      bertConfigInit vocab_size hidden_size num_hidden_layers
        num_attention_heads hidden_act intermediate_size
        hidden_dropout_prob attention_probs_dropout_prob
        max_position_embeddings type_vocab_size initializer_range ∧
    BertConfig.to_dict (bertConfigInit vocab_size hidden_size
        num_hidden_layers num_attention_heads hidden_act intermediate_size
        hidden_dropout_prob attention_probs_dropout_prob
        max_position_embeddings type_vocab_size initializer_range) =
      bertConfigInit vocab_size hidden_size num_hidden_layers
        num_attention_heads hidden_act intermediate_size
        hidden_dropout_prob attention_probs_dropout_prob
        max_position_embeddings type_vocab_size initializer_range := by
  constructor
  · simp [BertConfig.from_dict, BertConfig.to_dict, bertConfigInit,
      defaultBertConfigDict, dictSet]
  · simp [BertConfig.to_dict, bertConfigInit]
